import Mathlib

/-!
Shallow embedding of the Elo rating and fair matchmaking engine in
ai_reviewer_arena/elo_system.py.

Floating point arithmetic of the source is modelled by exact real
arithmetic over ℝ for the rating update and statistics functions,
and by exact rational arithmetic over ℚ for the fair pair search,
which keeps the search computable so that concrete runs reduce by
rfl and decide.  Randomness (random.choice) is modelled by explicit
index streams: random.choice(lst) is lst[n % len(lst)] for a stream
value n, and the empty list case, where Python raises IndexError,
is the none case of the choice function below.
-/

namespace MMRG

/-- Modelled from the spec: the four way enumeration of category
judgements, ARENA_RATING_CHOICES from configs/app_cfg.py, which is
absent from src.  The string values are fixed by the comments in
elo_system.py and by the test suite. -/
def choiceA : String := "👈  A is better"

/-- Second enumeration value, B is better. -/
def choiceB : String := "👉  B is better"

/-- Third enumeration value, tie. -/
def choiceTie : String := "🤝  Tie"

/-- Fourth enumeration value, both are bad. -/
def choiceBothBad : String := "👎  Both are bad"

/-- Modelled from the spec: ARENA_RATING_CHOICES from
configs/app_cfg.py, the list of the four enumerated judgement
strings, indexed 0..3 in elo_system.py. -/
def ARENA_RATING_CHOICES : List String := [choiceA, choiceB, choiceTie, choiceBothBad]

/-- Vote record, from votes.py.  The fields session_id, paper_id,
review_a, review_b and vote_time are omitted: they do not enter
update_ratings. -/
structure Vote where
  reviewer_a : String
  reviewer_b : String
  technical_quality : String
  constructiveness : String
  clarity : String
  overall_quality : String

/-- ReviewEvalWeights, from elo_system.py: four category weights. -/
structure ReviewEvalWeights where
  technical_quality : ℝ
  constructiveness : ℝ
  clarity : ℝ
  overall_quality : ℝ

noncomputable section

/-- Default weights of ReviewEvalWeights. -/
def defaultWeights : ReviewEvalWeights := ⟨0.2, 0.2, 0.2, 0.4⟩

/-- The per category score from the perspective of reviewer A,
the if elif chain in update_ratings: first choice scores 1.0,
second 0.0, third 0.5, and the final else branch, which catches the
both are bad value and every other string, scores 0.5. -/
def categoryScore (result : String) : ℝ :=
  if result = choiceA then 1.0
  else if result = choiceB then 0.0
  else if result = choiceTie then 0.5
  else 0.5

/-- total_score in update_ratings: the weighted sum of the four
category scores. -/
def total_score (w : ReviewEvalWeights) (v : Vote) : ℝ :=
  w.technical_quality * categoryScore v.technical_quality
    + w.constructiveness * categoryScore v.constructiveness
    + w.clarity * categoryScore v.clarity
    + w.overall_quality * categoryScore v.overall_quality

/-- total_weight in update_ratings: the sum of the four weights. -/
def total_weight (w : ReviewEvalWeights) : ℝ :=
  w.technical_quality + w.constructiveness + w.clarity + w.overall_quality

/-- normalized_score in update_ratings. -/
def normalized_score (w : ReviewEvalWeights) (v : Vote) : ℝ :=
  total_score w v / total_weight w

/-- EloSystem.expected_score: the logistic Elo formula. -/
def expected_score (rating_a rating_b : ℝ) : ℝ :=
  1 / (1 + (10 : ℝ) ^ ((rating_b - rating_a) / 400))

/-- Engine configuration: the constructor arguments of EloSystem. -/
structure EloConfig where
  k_factor : ℝ
  initial_rating : ℝ
  weights : ReviewEvalWeights

/-- The defaults of the EloSystem constructor. -/
def defaultConfig : EloConfig := ⟨32, 1500, defaultWeights⟩

/-- The mutable maps of an EloSystem instance.  The defaultdict
reads of the source are modelled by total functions: ratings maps
every key, returning the initial rating for keys never updated, and
vote_counts likewise with default 0. -/
structure EloState where
  ratings : String → ℝ
  vote_counts : String → ℝ

/-- The state right after construction with no votes: every rating
is the initial rating, every vote count is 0. -/
def initState (cfg : EloConfig) : EloState :=
  ⟨fun _ => cfg.initial_rating, fun _ => 0⟩

/-- EloSystem.update_ratings.  The two rating writes of the source
are sequential: the write to reviewer_b reads the map state left by
the write to reviewer_a, which matters exactly when the two
reviewers coincide.  The vote count writes are sequential in the
same way. -/
def update_ratings (cfg : EloConfig) (st : EloState) (v : Vote) : EloState :=
  let ns := normalized_score cfg.weights v
  let rating_a := st.ratings v.reviewer_a
  let rating_b := st.ratings v.reviewer_b
  let expected_a := expected_score rating_a rating_b
  let expected_b := 1 - expected_a
  let ratings1 : String → ℝ := fun x =>
    if x = v.reviewer_a then st.ratings x + cfg.k_factor * (ns - expected_a)
    else st.ratings x
  let ratings2 : String → ℝ := fun x =>
    if x = v.reviewer_b then ratings1 x + cfg.k_factor * ((1 - ns) - expected_b)
    else ratings1 x
  let counts1 : String → ℝ := fun x =>
    if x = v.reviewer_a then st.vote_counts x + ns else st.vote_counts x
  let counts2 : String → ℝ := fun x =>
    if x = v.reviewer_b then counts1 x + (1 - ns) else counts1 x
  ⟨ratings2, counts2⟩

/-- EloSystem.compute_ratings run on a cold engine: reset the maps,
then apply update_ratings to each stored vote in order. -/
def compute_ratings (cfg : EloConfig) (votes : List Vote) : EloState :=
  votes.foldl (update_ratings cfg) (initState cfg)

/-- EloSystem._calculate_confidence_interval. -/
def calculate_confidence_interval (cfg : EloConfig) (rating vote_count : ℝ) : ℝ × ℝ :=
  if vote_count = 0 then (rating, rating)
  else
    let std_dev := cfg.k_factor / Real.sqrt vote_count
    let margin := 1.96 * std_dev
    (rating - margin, rating + margin)

/-- Written from the words of the spec, section 4.2 step 1, for the
refinement claim: the judgement to raw score table, defined only on
the four enumerated values, A is better to 1.0, B is better to 0.0,
tie to 0.5, both bad to 0.5, and an arbitrary junk value 0 outside
the enumeration. -/
def specCategoryScore (result : String) : ℝ :=
  if result = choiceA then 1.0
  else if result = choiceB then 0.0
  else if result = choiceTie then 0.5
  else if result = choiceBothBad then 0.5
  else 0

end

/-!
The fair pair search, EloSystem.get_fair_pair.  Ratings are read
but never written here, so the search is modelled as a function of
a read only view of the ratings map: the list of keys on record and
the total rating function (defaultdict reads).  Rational arithmetic
stands in for the float arithmetic of the source; the widening
window loop adds the step to an exact accumulator, so the window
values are exactly 0, step, 2 step, and so on.  random.choice over
a list is modelled by an index stream consumed through the choice
function, and the IndexError it raises on an empty list is the
error result.
-/

/-- Read only view of the ratings map for the fair pair search:
keys is the list of reviewers on record and rating the defaultdict
read. -/
structure FPState where
  keys : List String
  rating : String → ℚ

/-- random.choice(lst): element at a stream index modulo the
length, none on the empty list, where Python raises IndexError. -/
def choice {α : Type} (l : List α) (n : Nat) : Option α :=
  l[n % l.length]?

/-- max over the values of the ratings map, as read once before the
attempt loop of get_fair_pair.  Defined as 0 on an empty map; the
source raises there, but the search only reads it when keys is
nonempty. -/
def maxRating (st : FPState) : ℚ :=
  match st.keys.map st.rating with
  | [] => 0
  | x :: xs => xs.foldl max x

/-- min over the values of the ratings map; see maxRating. -/
def minRating (st : FPState) : ℚ :=
  match st.keys.map st.rating with
  | [] => 0
  | x :: xs => xs.foldl min x

/-- max_possible_diff before rounding: the larger of the distances
from the base rating to the global max and min. -/
def maxPossibleDiff (st : FPState) (base : ℚ) : ℚ :=
  max (maxRating st - base) (base - minRating st)

/-- math.ceil(x / step) * step: round x up to a multiple of the
step. -/
def ceilStep (x step : ℚ) : ℚ :=
  ((⌈x / step⌉ : ℤ) : ℚ) * step

/-- The eligible_reviewers list comprehension inside the window
loop: members of candidates_b distinct from a, within the current
window around the rating of a, and excluded in neither order. -/
def eligible_reviewers (st : FPState) (candidates_b : List String) (a : String)
    (excl : List (String × String)) (d : ℚ) : List String :=
  candidates_b.filter fun r =>
    decide (r ≠ a ∧ |st.rating r - st.rating a| ≤ d
      ∧ (a, r) ∉ excl ∧ (r, a) ∉ excl)

/-- The inner while loop of get_fair_pair: starting from the
current window, while the window does not exceed the bound, return
the eligible list if it is nonempty, else widen the window by the
step.  The fuel argument is an upper bound on the iteration count;
window_fuel below always suffices when the step is positive, which
the fuel monotonicity theorem for claim C8 makes precise. -/
def window_search (st : FPState) (candidates_b : List String) (a : String)
    (excl : List (String × String)) (step bound : ℚ) :
    Nat → ℚ → Option (List String)
  | 0, _ => none
  | fuel + 1, current =>
    if current ≤ bound then
      match eligible_reviewers st candidates_b a excl current with
      | [] => window_search st candidates_b a excl step bound fuel (current + step)
      | el => some el
    else none

/-- Fuel that always covers the while loop when the step is
positive: the loop runs at most ceil(bound / step) + 1 times. -/
def window_fuel (bound step : ℚ) : Nat :=
  (⌈bound / step⌉).toNat + 2

/-- The outer for loop of get_fair_pair over the attempt budget:
draw a from candidates_a, compute the rounded up window bound for
a, run the widening window search, and on failure retry with the
remaining budget.  The error results mark the spots where the
source would raise IndexError on random.choice of an empty list. -/
def attempt_loop (st : FPState) (candidates_a candidates_b : List String)
    (excl : List (String × String)) (step : ℚ) (randA randB : Nat → Nat) :
    Nat → Except String (Option (String × String))
  | 0 => .ok none
  | n + 1 =>
    match choice candidates_a (randA n) with
    | none => .error "IndexError"
    | some a =>
      let bound := ceilStep (maxPossibleDiff st (st.rating a)) step
      match window_search st candidates_b a excl step bound
          (window_fuel bound step) 0 with
      | some el =>
        match choice el (randB n) with
        | some b => .ok (some (a, b))
        | none => .error "IndexError"
      | none => attempt_loop st candidates_a candidates_b excl step randA randB n

/-- EloSystem.get_fair_pair: resolve the optional candidate pools
against the reviewers on record, return the sentinel if either pool
is empty, take the cold start branch when no ratings are on record,
and otherwise run the bounded attempt loop with budget 100. -/
def get_fair_pair (st : FPState) (step : ℚ) (exclude_pairs : List (String × String))
    (ca cb : Option (List String)) (randA randB : Nat → Nat) :
    Except String (Option (String × String)) :=
  let all_reviewers := st.keys
  let candidates_a := ca.getD all_reviewers
  let candidates_b := cb.getD all_reviewers
  if candidates_a.length < 1 ∨ candidates_b.length < 1 then .ok none
  else if all_reviewers.isEmpty then
    match choice candidates_a (randA 0) with
    | none => .error "IndexError"
    | some a =>
      match choice (candidates_b.filter fun r => decide (r ≠ a)) (randB 0) with
      | none => .error "IndexError"
      | some b => .ok (some (a, b))
  else
    attempt_loop st candidates_a candidates_b exclude_pairs step randA randB 100

/-- Cold ratings view: no reviewer on record. -/
def coldState : FPState := ⟨[], fun _ => 1500⟩

/-- Two reviewers on record with equal ratings 1500. -/
def twoState : FPState := ⟨["A", "B"], fun _ => 1500⟩

/-- Concrete vote of the spec scenario: A versus B, all four
categories A is better. -/
def voteAllA : Vote := ⟨"A", "B", choiceA, choiceA, choiceA, choiceA⟩

/-- Concrete malformed vote: all four judgement strings outside the
enumeration. -/
def voteBad : Vote := ⟨"A", "B", "invalid", "invalid", "invalid", "invalid"⟩

/-- Concrete self comparison vote: both sides are the reviewer X,
all categories A is better. -/
def voteSelf : Vote := ⟨"X", "X", choiceA, choiceA, choiceA, choiceA⟩

/-- The expected score of a reviewer against an equally rated
reviewer is one half. -/
theorem expected_score_self (r : ℝ) : expected_score r r = 1/2 := by
  simp [expected_score]
  norm_num

/-- The two expected scores of one comparison sum to one. -/
theorem expected_score_compl (ra rb : ℝ) :
    expected_score ra rb + expected_score rb ra = 1 := by
  unfold expected_score
  have hx : (ra - rb) / 400 = -((rb - ra) / 400) := by ring
  rw [hx, Real.rpow_neg (by norm_num : (0:ℝ) ≤ 10)]
  have ht : 0 < (10:ℝ) ^ ((rb - ra) / 400) := Real.rpow_pos_of_pos (by norm_num) _
  have h1 : (1:ℝ) + (10:ℝ) ^ ((rb - ra) / 400) ≠ 0 := by positivity
  have h2 : (1:ℝ) + ((10:ℝ) ^ ((rb - ra) / 400))⁻¹ ≠ 0 := by positivity
  field_simp
  ring

/-- On the four enumerated judgement values, the catch all else
branch of the source agrees with the score table of the spec. -/
theorem categoryScore_eq_spec (s : String) (h : s ∈ ARENA_RATING_CHOICES) :
    categoryScore s = specCategoryScore s := by
  simp only [ARENA_RATING_CHOICES, List.mem_cons, List.not_mem_nil, or_false] at h
  rcases h with h | h | h | h <;> subst h <;>
    simp [categoryScore, specCategoryScore, choiceA, choiceB, choiceTie, choiceBothBad]

/-- The rating of reviewer_a after one update, when the two
reviewers are distinct. -/
theorem update_ratings_ratings_a (cfg : EloConfig) (st : EloState) (v : Vote)
    (hab : v.reviewer_a ≠ v.reviewer_b) :
    (update_ratings cfg st v).ratings v.reviewer_a
      = st.ratings v.reviewer_a + cfg.k_factor *
          (normalized_score cfg.weights v
            - expected_score (st.ratings v.reviewer_a) (st.ratings v.reviewer_b)) := by
  simp [update_ratings, hab]

/-- The rating of reviewer_b after one update, when the two
reviewers are distinct. -/
theorem update_ratings_ratings_b (cfg : EloConfig) (st : EloState) (v : Vote)
    (hab : v.reviewer_a ≠ v.reviewer_b) :
    (update_ratings cfg st v).ratings v.reviewer_b
      = st.ratings v.reviewer_b + cfg.k_factor *
          ((1 - normalized_score cfg.weights v)
            - (1 - expected_score (st.ratings v.reviewer_a) (st.ratings v.reviewer_b))) := by
  simp [update_ratings, Ne.symm hab]

/-- The normalized score of the all categories A is better vote
under the default weights is exactly one. -/
theorem normalized_score_voteAllA : normalized_score defaultWeights voteAllA = 1 := by
  simp [normalized_score, total_score, total_weight, defaultWeights, voteAllA, categoryScore]
  norm_num

/-- Spec scenario, side A: starting from two fresh ratings of 1500
and one vote with all four categories A is better, the new rating
of A is exactly 1516. -/
theorem scenario_rating_a : (compute_ratings defaultConfig [voteAllA]).ratings "A" = 1516 := by
  have hns : normalized_score defaultConfig.weights voteAllA = 1 := normalized_score_voteAllA
  have h := update_ratings_ratings_a defaultConfig (initState defaultConfig) voteAllA
    (by decide)
  simp only [compute_ratings, List.foldl]
  rw [show voteAllA.reviewer_a = "A" from rfl,
    show voteAllA.reviewer_b = "B" from rfl] at h
  rw [h, hns]
  simp only [initState]
  rw [expected_score_self]
  norm_num [defaultConfig]

/-- Spec scenario, side B: the new rating of B is exactly 1484. -/
theorem scenario_rating_b : (compute_ratings defaultConfig [voteAllA]).ratings "B" = 1484 := by
  have hns : normalized_score defaultConfig.weights voteAllA = 1 := normalized_score_voteAllA
  have h := update_ratings_ratings_b defaultConfig (initState defaultConfig) voteAllA
    (by decide)
  simp only [compute_ratings, List.foldl]
  rw [show voteAllA.reviewer_a = "A" from rfl,
    show voteAllA.reviewer_b = "B" from rfl] at h
  rw [h, hns]
  simp only [initState]
  rw [expected_score_self]
  norm_num [defaultConfig]

/-- Claim C1: for every vote on two distinct reviewers whose four
category judgements lie in the enumeration, update_ratings realizes
the spec formulas: the normalized score is the weighted sum of the
spec score table divided by the actual sum of the four weights, the
expected score is the logistic formula, and the two new ratings are
Ra + K (s minus Ea) and Rb + K ((1 minus s) minus Eb) with
Eb = 1 minus Ea; moreover in the concrete scenario, both ratings at
1500, all four categories A is better, default weights, K = 32, the
post update ratings are exactly 1516 for A and 1484 for B. -/
theorem C1_update_rule (cfg : EloConfig) (st : EloState) (v : Vote)
    (hab : v.reviewer_a ≠ v.reviewer_b)
    (h1 : v.technical_quality ∈ ARENA_RATING_CHOICES)
    (h2 : v.constructiveness ∈ ARENA_RATING_CHOICES)
    (h3 : v.clarity ∈ ARENA_RATING_CHOICES)
    (h4 : v.overall_quality ∈ ARENA_RATING_CHOICES) :
    ((update_ratings cfg st v).ratings v.reviewer_a
        = st.ratings v.reviewer_a + cfg.k_factor *
            ((cfg.weights.technical_quality * specCategoryScore v.technical_quality
              + cfg.weights.constructiveness * specCategoryScore v.constructiveness
              + cfg.weights.clarity * specCategoryScore v.clarity
              + cfg.weights.overall_quality * specCategoryScore v.overall_quality)
              / (cfg.weights.technical_quality + cfg.weights.constructiveness
                  + cfg.weights.clarity + cfg.weights.overall_quality)
             - 1 / (1 + (10:ℝ)
                ^ ((st.ratings v.reviewer_b - st.ratings v.reviewer_a) / 400)))
      ∧ (update_ratings cfg st v).ratings v.reviewer_b
        = st.ratings v.reviewer_b + cfg.k_factor *
            ((1 - (cfg.weights.technical_quality * specCategoryScore v.technical_quality
              + cfg.weights.constructiveness * specCategoryScore v.constructiveness
              + cfg.weights.clarity * specCategoryScore v.clarity
              + cfg.weights.overall_quality * specCategoryScore v.overall_quality)
              / (cfg.weights.technical_quality + cfg.weights.constructiveness
                  + cfg.weights.clarity + cfg.weights.overall_quality))
             - (1 - 1 / (1 + (10:ℝ)
                ^ ((st.ratings v.reviewer_b - st.ratings v.reviewer_a) / 400)))))
  ∧ (compute_ratings defaultConfig [voteAllA]).ratings "A" = 1516
  ∧ (compute_ratings defaultConfig [voteAllA]).ratings "B" = 1484 := by
  have hns : normalized_score cfg.weights v
      = (cfg.weights.technical_quality * specCategoryScore v.technical_quality
          + cfg.weights.constructiveness * specCategoryScore v.constructiveness
          + cfg.weights.clarity * specCategoryScore v.clarity
          + cfg.weights.overall_quality * specCategoryScore v.overall_quality)
          / (cfg.weights.technical_quality + cfg.weights.constructiveness
              + cfg.weights.clarity + cfg.weights.overall_quality) := by
    unfold normalized_score total_score total_weight
    rw [categoryScore_eq_spec _ h1, categoryScore_eq_spec _ h2,
      categoryScore_eq_spec _ h3, categoryScore_eq_spec _ h4]
  have hea : expected_score (st.ratings v.reviewer_a) (st.ratings v.reviewer_b)
      = 1 / (1 + (10:ℝ) ^ ((st.ratings v.reviewer_b - st.ratings v.reviewer_a) / 400)) :=
    rfl
  refine ⟨⟨?_, ?_⟩, scenario_rating_a, scenario_rating_b⟩
  · rw [update_ratings_ratings_a cfg st v hab, hns, hea]
  · rw [update_ratings_ratings_b cfg st v hab, hns, hea]

/-- Witness for C1 at the concrete scenario input. -/
theorem C1_witness : (compute_ratings defaultConfig [voteAllA]).ratings "A" = 1516 :=
  (C1_update_rule defaultConfig (initState defaultConfig) voteAllA (by decide)
    (by decide) (by decide) (by decide) (by decide)).2.1

/-- Claim C9: the expected score of equal ratings is one half, and
the two expected scores of any comparison sum to one. -/
theorem C9_expected_score_algebra :
    (∀ r : ℝ, expected_score r r = 0.5)
  ∧ ∀ ra rb : ℝ, expected_score ra rb + expected_score rb ra = 1 :=
  ⟨fun r => by rw [expected_score_self]; norm_num, expected_score_compl⟩

/-- Claim C10: for a vote on two distinct reviewers the two rating
increments are exact negatives, so the update preserves the sum of
the two ratings and leaves every other rating unchanged, and the
two vote mass increments sum to exactly one, so the joint vote mass
grows by exactly one. -/
theorem C10_zero_sum (cfg : EloConfig) (st : EloState) (v : Vote)
    (hab : v.reviewer_a ≠ v.reviewer_b) :
    cfg.k_factor * (normalized_score cfg.weights v
        - expected_score (st.ratings v.reviewer_a) (st.ratings v.reviewer_b))
      = -(cfg.k_factor * ((1 - normalized_score cfg.weights v)
          - (1 - expected_score (st.ratings v.reviewer_a) (st.ratings v.reviewer_b))))
  ∧ (update_ratings cfg st v).ratings v.reviewer_a
      + (update_ratings cfg st v).ratings v.reviewer_b
      = st.ratings v.reviewer_a + st.ratings v.reviewer_b
  ∧ (∀ x, x ≠ v.reviewer_a → x ≠ v.reviewer_b →
      (update_ratings cfg st v).ratings x = st.ratings x)
  ∧ normalized_score cfg.weights v + (1 - normalized_score cfg.weights v) = 1
  ∧ (update_ratings cfg st v).vote_counts v.reviewer_a
      + (update_ratings cfg st v).vote_counts v.reviewer_b
      = st.vote_counts v.reviewer_a + st.vote_counts v.reviewer_b + 1 := by
  refine ⟨by ring, ?_, ?_, by ring, ?_⟩
  · rw [update_ratings_ratings_a cfg st v hab, update_ratings_ratings_b cfg st v hab]
    ring
  · intro x hxa hxb
    simp [update_ratings, hxa, hxb]
  · simp [update_ratings, hab, Ne.symm hab]
    ring

/-- Witness for C10: the sum of the two ratings is unchanged by the
scenario vote. -/
theorem C10_witness :
    (update_ratings defaultConfig (initState defaultConfig) voteAllA).ratings "A"
      + (update_ratings defaultConfig (initState defaultConfig) voteAllA).ratings "B"
      = (initState defaultConfig).ratings "A" + (initState defaultConfig).ratings "B" :=
  (C10_zero_sum defaultConfig (initState defaultConfig) voteAllA (by decide)).2.1

/-- Counterexample to claim C3: on the concrete vote whose four
judgement strings are the out of enumeration value invalid,
update_ratings does not fail: it silently scores the comparison as
one half per category and mutates the vote mass of A from 0 to 0.5,
leaving the equal ratings unchanged. -/
theorem C3_counterexample :
    "invalid" ∉ ARENA_RATING_CHOICES
  ∧ (update_ratings defaultConfig (initState defaultConfig) voteBad).vote_counts "A" = 0.5
  ∧ (update_ratings defaultConfig (initState defaultConfig) voteBad).ratings "A" = 1500 := by
  have hns : normalized_score defaultWeights voteBad = 0.5 := by
    simp [normalized_score, total_score, total_weight, defaultWeights, voteBad,
      categoryScore, choiceA, choiceB, choiceTie]
    norm_num
  refine ⟨by decide, ?_, ?_⟩
  · simp [update_ratings, initState, defaultConfig,
      show voteBad.reviewer_a = "A" from rfl, show voteBad.reviewer_b = "B" from rfl, hns]
  · simp [update_ratings, initState, defaultConfig,
      show voteBad.reviewer_a = "A" from rfl, show voteBad.reviewer_b = "B" from rfl, hns,
      expected_score_self]
    norm_num

/-- Claim C3 amended: update_ratings does not validate category
judgements; every string outside the enumeration falls into the
catch all else branch, is scored 0.5, and the update behaves
exactly as if the judgement were the both are bad value. -/
theorem C3_malformed_scored_as_tie (s : String) (h : s ∉ ARENA_RATING_CHOICES) :
    categoryScore s = 0.5
  ∧ ∀ (cfg : EloConfig) (st : EloState) (v : Vote), v.overall_quality = s →
      update_ratings cfg st v
        = update_ratings cfg st { v with overall_quality := choiceBothBad } := by
  simp only [ARENA_RATING_CHOICES, List.mem_cons, List.not_mem_nil, or_false,
    not_or] at h
  obtain ⟨hA, hB, hT, hBB⟩ := h
  have hcs : categoryScore s = 0.5 := by
    simp [categoryScore, hA, hB, hT]
  refine ⟨hcs, ?_⟩
  intro cfg st v hv
  have hbb : categoryScore choiceBothBad = 0.5 := by
    simp [categoryScore, choiceA, choiceB, choiceTie, choiceBothBad]
  unfold update_ratings normalized_score total_score total_weight
  simp only [hv, hcs, hbb]

/-- Witness for the amended C3 at the out of enumeration string
invalid. -/
theorem C3_witness : categoryScore "invalid" = 0.5 :=
  (C3_malformed_scored_as_tie "invalid" (by decide)).1

/-- Counterexample to claim C4: on the concrete self comparison
vote of reviewer X, update_ratings does not fail fast: it proceeds
and updates the vote mass of X from 0 to 1 (the rating of X is left
net unchanged because the two sequential increments cancel). -/
theorem C4_counterexample :
    (update_ratings defaultConfig (initState defaultConfig) voteSelf).vote_counts "X" = 1
  ∧ (update_ratings defaultConfig (initState defaultConfig) voteSelf).ratings "X" = 1500 := by
  constructor
  · simp [update_ratings, initState, defaultConfig,
      show voteSelf.reviewer_a = "X" from rfl, show voteSelf.reviewer_b = "X" from rfl]
  · simp [update_ratings, initState, defaultConfig,
      show voteSelf.reviewer_a = "X" from rfl, show voteSelf.reviewer_b = "X" from rfl,
      expected_score_self]
    ring

/-- Claim C4 amended: update_ratings performs no self comparison
check; on a vote whose two reviewer identities coincide it applies
both sequential updates to that one key, leaving its rating net
unchanged, adding exactly one to its vote mass, and touching no
other key. -/
theorem C4_self_comparison_behavior (cfg : EloConfig) (st : EloState) (v : Vote)
    (hab : v.reviewer_a = v.reviewer_b) :
    (update_ratings cfg st v).ratings v.reviewer_a = st.ratings v.reviewer_a
  ∧ (update_ratings cfg st v).vote_counts v.reviewer_a = st.vote_counts v.reviewer_a + 1
  ∧ ∀ x, x ≠ v.reviewer_a →
      (update_ratings cfg st v).ratings x = st.ratings x
      ∧ (update_ratings cfg st v).vote_counts x = st.vote_counts x := by
  refine ⟨?_, ?_, ?_⟩
  · simp only [update_ratings, hab]
    simp [expected_score_self]
    ring
  · simp only [update_ratings, hab]
    simp
  · intro x hx
    have hx2 : x ≠ v.reviewer_b := hab ▸ hx
    simp [update_ratings, hx, hx2]

/-- Witness for the amended C4 at the concrete self comparison
vote. -/
theorem C4_witness :
    (update_ratings defaultConfig (initState defaultConfig) voteSelf).ratings
      voteSelf.reviewer_a = (initState defaultConfig).ratings voteSelf.reviewer_a :=
  (C4_self_comparison_behavior defaultConfig (initState defaultConfig) voteSelf rfl).1

/-- Claim C6: replay is deterministic: two cold engines with equal
k factor, initial rating and weights, replaying equal ordered vote
histories, end with identical rating maps. -/
theorem C6_replay_deterministic (c1 c2 : EloConfig) (votes1 votes2 : List Vote)
    (hk : c1.k_factor = c2.k_factor) (hi : c1.initial_rating = c2.initial_rating)
    (hw : c1.weights = c2.weights) (hv : votes1 = votes2) :
    (compute_ratings c1 votes1).ratings = (compute_ratings c2 votes2).ratings := by
  obtain ⟨k1, i1, w1⟩ := c1
  obtain ⟨k2, i2, w2⟩ := c2
  simp only at hk hi hw
  subst hk
  subst hi
  subst hw
  subst hv
  rfl

/-- Witness for C6 at the default configuration and the scenario
history. -/
theorem C6_witness :
    (compute_ratings defaultConfig [voteAllA]).ratings
      = (compute_ratings defaultConfig [voteAllA]).ratings :=
  C6_replay_deterministic defaultConfig defaultConfig [voteAllA] [voteAllA]
    rfl rfl rfl rfl

/-- Claim C7: the confidence interval collapses to the point
interval at vote mass 0; at positive vote mass it is the rating
plus and minus 1.96 times k over the square root of the mass, it
strictly contains the rating when the k factor is positive, and its
width strictly decreases as the mass grows. -/
theorem C7_confidence_interval (cfg : EloConfig) (rating : ℝ) :
    calculate_confidence_interval cfg rating 0 = (rating, rating)
  ∧ (∀ vc : ℝ, 0 < vc → calculate_confidence_interval cfg rating vc
      = (rating - 1.96 * (cfg.k_factor / Real.sqrt vc),
         rating + 1.96 * (cfg.k_factor / Real.sqrt vc)))
  ∧ (0 < cfg.k_factor → ∀ vc : ℝ, 0 < vc →
      (calculate_confidence_interval cfg rating vc).1 < rating
      ∧ rating < (calculate_confidence_interval cfg rating vc).2)
  ∧ (0 < cfg.k_factor → ∀ v1 v2 : ℝ, 0 < v1 → v1 < v2 →
      (calculate_confidence_interval cfg rating v2).2
        - (calculate_confidence_interval cfg rating v2).1
      < (calculate_confidence_interval cfg rating v1).2
        - (calculate_confidence_interval cfg rating v1).1) := by
  have heq : ∀ vc : ℝ, 0 < vc → calculate_confidence_interval cfg rating vc
      = (rating - 1.96 * (cfg.k_factor / Real.sqrt vc),
         rating + 1.96 * (cfg.k_factor / Real.sqrt vc)) := by
    intro vc hvc
    rw [calculate_confidence_interval, if_neg (ne_of_gt hvc)]
  refine ⟨by simp [calculate_confidence_interval], heq, ?_, ?_⟩
  · intro hk vc hvc
    have hm : 0 < 1.96 * (cfg.k_factor / Real.sqrt vc) := by
      have := Real.sqrt_pos.mpr hvc
      positivity
    rw [heq vc hvc]
    exact ⟨sub_lt_self _ hm, lt_add_of_pos_right _ hm⟩
  · intro hk v1 v2 h1 h12
    rw [heq v1 h1, heq v2 (h1.trans h12)]
    have hs1 : 0 < Real.sqrt v1 := Real.sqrt_pos.mpr h1
    have hlt : Real.sqrt v1 < Real.sqrt v2 := Real.sqrt_lt_sqrt h1.le h12
    have : cfg.k_factor / Real.sqrt v2 < cfg.k_factor / Real.sqrt v1 :=
      div_lt_div_of_pos_left hk hs1 hlt
    simp only []
    linarith

/-- Witness for C7: the interval at mass 4 is strictly narrower
than at mass 1 for the default k factor 32. -/
theorem C7_witness :
    (calculate_confidence_interval defaultConfig 1500 4).2
      - (calculate_confidence_interval defaultConfig 1500 4).1
    < (calculate_confidence_interval defaultConfig 1500 1).2
      - (calculate_confidence_interval defaultConfig 1500 1).1 :=
  (C7_confidence_interval defaultConfig 1500).2.2.2
    (by norm_num [defaultConfig]) 1 4 (by norm_num) (by norm_num)

/-- A successful choice draws a member of the list. -/
theorem choice_mem {α : Type} {l : List α} {n : Nat} {x : α}
    (h : choice l n = some x) : x ∈ l := by
  unfold choice at h
  exact List.getElem?_mem h

/-- choice on a nonempty list always succeeds, as random.choice
does. -/
theorem choice_eq_some {α : Type} {l : List α} (hl : l ≠ []) (n : Nat) :
    ∃ x, choice l n = some x := by
  have hlen : 0 < l.length := List.length_pos.mpr hl
  have hlt : n % l.length < l.length := Nat.mod_lt _ hlen
  exact ⟨l.get ⟨n % l.length, hlt⟩, by unfold choice; exact List.getElem?_eq_getElem hlt⟩

/-- Membership in the eligible list unfolds to the four conditions
of the comprehension. -/
theorem eligible_mem {st : FPState} {candB : List String} {a : String}
    {excl : List (String × String)} {d : ℚ} {b : String} :
    b ∈ eligible_reviewers st candB a excl d ↔
      b ∈ candB ∧ (b ≠ a ∧ |st.rating b - st.rating a| ≤ d
        ∧ (a, b) ∉ excl ∧ (b, a) ∉ excl) := by
  unfold eligible_reviewers
  rw [List.mem_filter]
  simp only [decide_eq_true_eq]

/-- A successful window search returns the nonempty eligible list
of some window that does not exceed the bound. -/
theorem window_search_some {st : FPState} {candB : List String} {a : String}
    {excl : List (String × String)} {step bound : ℚ} :
    ∀ (fuel : Nat) (current : ℚ) (el : List String),
      window_search st candB a excl step bound fuel current = some el →
      ∃ d, d ≤ bound ∧ el = eligible_reviewers st candB a excl d ∧ el ≠ [] := by
  intro fuel
  induction fuel with
  | zero =>
    intro current el h
    simp [window_search] at h
  | succ n ih =>
    intro current el h
    rw [window_search] at h
    by_cases hc : current ≤ bound
    · rw [if_pos hc] at h
      cases heq : eligible_reviewers st candB a excl current with
      | nil =>
        rw [heq] at h
        exact ih _ _ h
      | cons x xs =>
        rw [heq] at h
        simp at h
        exact ⟨current, hc, by rw [heq, h], by simp [← h]⟩
    · rw [if_neg hc] at h
      simp at h

/-- The window search is insensitive to extra fuel once the fuel
covers the remaining iterations: the while loop it models
terminates within that fuel. -/
theorem window_search_fuel_irrel {st : FPState} {candB : List String} {a : String}
    {excl : List (String × String)} {step bound : ℚ} :
    ∀ (n m : Nat) (current : ℚ), bound - current < (n : ℚ) * step → n ≤ m →
      window_search st candB a excl step bound m current
        = window_search st candB a excl step bound n current := by
  intro n
  induction n with
  | zero =>
    intro m current hlt hm
    have hc : ¬ current ≤ bound := by
      intro hcb
      push_cast at hlt
      linarith
    cases m with
    | zero => rfl
    | succ k => simp only [window_search, if_neg hc]
  | succ n ih =>
    intro m current hlt hm
    obtain ⟨k, rfl⟩ : ∃ k, m = k + 1 := ⟨m - 1, by omega⟩
    have hk : n ≤ k := by omega
    rw [window_search, window_search]
    by_cases hc : current ≤ bound
    · rw [if_pos hc, if_pos hc]
      cases heq : eligible_reviewers st candB a excl current with
      | nil =>
        exact ih k (current + step) (by push_cast at hlt ⊢; linarith) hk
      | cons x xs => rfl
    · rw [if_neg hc, if_neg hc]

/-- The attempt loop on a nonempty a pool never errors: it returns
the sentinel or a pair drawn from the pools, the pair coming from
the eligible list of a window within the rounded up bound. -/
theorem attempt_loop_spec (st : FPState) (candA candB : List String)
    (excl : List (String × String)) (step : ℚ) (ra rb : Nat → Nat)
    (hA : candA ≠ []) :
    ∀ n : Nat,
      attempt_loop st candA candB excl step ra rb n = .ok none
      ∨ ∃ a b d, attempt_loop st candA candB excl step ra rb n = .ok (some (a, b))
          ∧ a ∈ candA
          ∧ d ≤ ceilStep (maxPossibleDiff st (st.rating a)) step
          ∧ b ∈ eligible_reviewers st candB a excl d := by
  intro n
  induction n with
  | zero => exact Or.inl rfl
  | succ n ih =>
    obtain ⟨a, ha⟩ := choice_eq_some hA (ra n)
    cases hw : window_search st candB a excl step
        (ceilStep (maxPossibleDiff st (st.rating a)) step)
        (window_fuel (ceilStep (maxPossibleDiff st (st.rating a)) step) step) 0 with
    | none =>
      have hone : attempt_loop st candA candB excl step ra rb (n + 1)
          = attempt_loop st candA candB excl step ra rb n := by
        simp only [attempt_loop, ha, hw]
      rw [hone]
      exact ih
    | some el =>
      obtain ⟨d, hd, hel, hne⟩ := window_search_some _ _ _ hw
      obtain ⟨b, hb⟩ := choice_eq_some hne (rb n)
      have heq : attempt_loop st candA candB excl step ra rb (n + 1)
          = .ok (some (a, b)) := by
        simp only [attempt_loop, ha, hw, hb]
      refine Or.inr ⟨a, b, d, heq, choice_mem ha, hd, ?_⟩
      rw [← hel]
      exact choice_mem hb

/-- Counterexample to claim C2: on the cold start path the
exclusion set is never consulted, so with no ratings on record,
pools X and Y, and the pair already excluded, get_fair_pair still
returns that excluded pair. -/
theorem C2_counterexample :
    get_fair_pair coldState 10 [("X", "Y")] (some ["X"]) (some ["Y"])
        (fun _ => 0) (fun _ => 0) = .ok (some ("X", "Y"))
  ∧ ("X", "Y") ∈ [("X", "Y")] := ⟨rfl, by decide⟩

/-- Claim C2 amended: every pair returned by get_fair_pair has
distinct members, and when at least one rating is on record, in
which case the widening window branch runs, the pair is also absent
from exclude_pairs in both orders; the cold start branch checks
distinctness but ignores exclude_pairs. -/
theorem C2_pair_validity (st : FPState) (step : ℚ) (excl : List (String × String))
    (ca cb : Option (List String)) (ra rb : Nat → Nat) (a b : String)
    (h : get_fair_pair st step excl ca cb ra rb = .ok (some (a, b))) :
    a ≠ b ∧ (st.keys ≠ [] → ((a, b) ∉ excl ∧ (b, a) ∉ excl)) := by
  unfold get_fair_pair at h
  by_cases h1 : (ca.getD st.keys).length < 1 ∨ (cb.getD st.keys).length < 1
  · rw [if_pos h1] at h
    simp at h
  · rw [if_neg h1] at h
    by_cases h2 : st.keys.isEmpty
    · rw [if_pos h2] at h
      have hkeys : st.keys = [] := List.isEmpty_iff.mp h2
      cases hca : choice (ca.getD st.keys) (ra 0) with
      | none => rw [hca] at h; simp at h
      | some a0 =>
        simp only [hca] at h
        cases hcb : choice ((cb.getD st.keys).filter fun r => decide (r ≠ a0)) (rb 0) with
        | none => simp only [hcb] at h; simp at h
        | some b0 =>
          simp only [hcb] at h
          simp at h
          obtain ⟨rfl, rfl⟩ := h
          have hbmem := choice_mem hcb
          rw [List.mem_filter] at hbmem
          have hba : b0 ≠ a0 := by simpa using hbmem.2
          exact ⟨Ne.symm hba, fun hk => absurd hkeys hk⟩
    · rw [if_neg h2] at h
      have hA : ca.getD st.keys ≠ [] := by
        intro hnil
        exact h1 (Or.inl (by simp [hnil]))
      rcases attempt_loop_spec st _ _ excl step ra rb hA 100 with hnone |
        ⟨a0, b0, d, heq, hmem, hd, helig⟩
      · rw [hnone] at h
        simp at h
      · rw [heq] at h
        simp at h
        obtain ⟨rfl, rfl⟩ := h
        obtain ⟨hbB, hba, hwin, hex1, hex2⟩ := eligible_mem.mp helig
        exact ⟨Ne.symm hba, fun _ => ⟨hex1, hex2⟩⟩

set_option maxRecDepth 8000 in
/-- Witness for the amended C2 on a concrete run of the widening
window branch. -/
theorem C2_witness :
    "A" ≠ "B" ∧ (twoState.keys ≠ [] →
      (("A", "B") ∉ ([] : List (String × String))
        ∧ ("B", "A") ∉ ([] : List (String × String)))) :=
  C2_pair_validity twoState 10 [] (some ["A"]) (some ["B"]) (fun _ => 0) (fun _ => 0)
    "A" "B" (by
      have h1 : ceilStep (maxPossibleDiff twoState (twoState.rating "A")) 10 = 0 := by
        simp [ceilStep, maxPossibleDiff, maxRating, minRating, twoState]
      have h3 : window_fuel 0 10 = 2 := by
        simp [window_fuel]
      simp [get_fair_pair, attempt_loop, twoState] at h1 ⊢
      rw [h1, h3]
      norm_num [window_search, eligible_reviewers, choice, twoState]
      rfl)

/-- Counterexample to claim C5: get_fair_pair is not exception
free: on the cold start path with both pools the singleton X, the
set difference pool_b minus the sampled a is empty and random
choice raises IndexError instead of returning the sentinel. -/
theorem C5_counterexample :
    get_fair_pair coldState 10 [] (some ["X"]) (some ["X"])
      (fun _ => 0) (fun _ => 0) = .error "IndexError" := rfl

/-- Claim C5 amended: get_fair_pair returns the sentinel
immediately when either resolved pool is empty; when at least one
rating is on record it is total, returning the sentinel or a pair
drawn from the two pools; on the cold start path it returns a valid
pair whenever pool_b minus the sampled a is nonempty, but raises
IndexError when that difference is empty. -/
theorem C5_interface (st : FPState) (step : ℚ) (excl : List (String × String))
    (ca cb : Option (List String)) (ra rb : Nat → Nat) :
    ((ca.getD st.keys = [] ∨ cb.getD st.keys = []) →
        get_fair_pair st step excl ca cb ra rb = .ok none)
  ∧ (st.keys ≠ [] →
        get_fair_pair st step excl ca cb ra rb = .ok none
        ∨ ∃ a b, get_fair_pair st step excl ca cb ra rb = .ok (some (a, b))
            ∧ a ∈ ca.getD st.keys ∧ b ∈ cb.getD st.keys)
  ∧ (st.keys = [] → ∀ a : String, choice (ca.getD st.keys) (ra 0) = some a →
        (cb.getD st.keys).filter (fun r => decide (r ≠ a)) ≠ [] →
        ∃ b, b ∈ cb.getD st.keys ∧ b ≠ a
          ∧ get_fair_pair st step excl ca cb ra rb = .ok (some (a, b))) := by
  refine ⟨?_, ?_, ?_⟩
  · intro hemp
    unfold get_fair_pair
    have h1 : (ca.getD st.keys).length < 1 ∨ (cb.getD st.keys).length < 1 := by
      rcases hemp with h | h
      · exact Or.inl (by simp [h])
      · exact Or.inr (by simp [h])
    rw [if_pos h1]
  · intro hkeys
    by_cases h1 : (ca.getD st.keys).length < 1 ∨ (cb.getD st.keys).length < 1
    · left
      unfold get_fair_pair
      rw [if_pos h1]
    · have h2 : ¬ st.keys.isEmpty := by simpa [List.isEmpty_iff] using hkeys
      have hA : ca.getD st.keys ≠ [] := by
        intro hnil
        exact h1 (Or.inl (by simp [hnil]))
      have hmain : get_fair_pair st step excl ca cb ra rb
          = attempt_loop st (ca.getD st.keys) (cb.getD st.keys) excl step ra rb 100 := by
        unfold get_fair_pair
        rw [if_neg h1, if_neg (by simpa using h2)]
      rcases attempt_loop_spec st _ _ excl step ra rb hA 100 with hnone |
        ⟨a0, b0, d, heq, hmem, hd, helig⟩
      · left
        rw [hmain, hnone]
      · right
        exact ⟨a0, b0, by rw [hmain, heq], hmem, (eligible_mem.mp helig).1⟩
  · intro hkeys a hca hfil
    have hA : ca.getD st.keys ≠ [] := List.ne_nil_of_mem (choice_mem hca)
    obtain ⟨b, hb⟩ := choice_eq_some hfil (rb 0)
    have hbmem := choice_mem hb
    rw [List.mem_filter] at hbmem
    have hB : cb.getD st.keys ≠ [] := List.ne_nil_of_mem hbmem.1
    have h1 : ¬ ((ca.getD st.keys).length < 1 ∨ (cb.getD st.keys).length < 1) := by
      push_neg
      constructor
      · have := List.length_pos.mpr hA
        omega
      · have := List.length_pos.mpr hB
        omega
    refine ⟨b, hbmem.1, by simpa using hbmem.2, ?_⟩
    unfold get_fair_pair
    rw [if_neg h1, if_pos (by simpa [List.isEmpty_iff] using hkeys)]
    simp only [hca, hb]

/-- Witness for the amended C5: an empty pool yields the sentinel
immediately. -/
theorem C5_witness :
    get_fair_pair coldState 10 [] (some []) (some ["Y"])
      (fun _ => 0) (fun _ => 0) = .ok none :=
  (C5_interface coldState 10 [] (some []) (some ["Y"]) (fun _ => 0) (fun _ => 0)).1
    (Or.inl rfl)

/-- Claim C8: for a positive widening step the search terminates:
exhausting the attempt budget yields the sentinel, the window while
loop is insensitive to fuel beyond its bound derived from the
maximum rating distance rounded up to a multiple of the step (so it
terminates within that many iterations), the attempt loop never
raises, and any returned pair lies within the rounded up window
bound of the drawn reviewer. -/
theorem C8_search_bounded (st : FPState) (candA candB : List String)
    (excl : List (String × String)) (step : ℚ) (ra rb : Nat → Nat)
    (hstep : 0 < step) :
    attempt_loop st candA candB excl step ra rb 0 = .ok none
  ∧ (∀ bound : ℚ, ∀ a : String, ∀ m : Nat, window_fuel bound step ≤ m →
      window_search st candB a excl step bound m 0
        = window_search st candB a excl step bound (window_fuel bound step) 0)
  ∧ (∀ n : Nat, ∀ e : String, candA ≠ [] →
      attempt_loop st candA candB excl step ra rb n ≠ .error e)
  ∧ (∀ ca cb : Option (List String), ∀ a b : String, st.keys ≠ [] →
      get_fair_pair st step excl ca cb ra rb = .ok (some (a, b)) →
      |st.rating b - st.rating a| ≤ ceilStep (maxPossibleDiff st (st.rating a)) step) := by
  have hfuel : ∀ bound : ℚ, bound - 0 < ((window_fuel bound step : ℕ) : ℚ) * step := by
    intro bound
    have h1 : bound / step ≤ ((⌈bound / step⌉ : ℤ) : ℚ) := Int.le_ceil _
    have h2 : ((⌈bound / step⌉ : ℤ) : ℚ) ≤ ((⌈bound / step⌉.toNat : ℕ) : ℚ) := by
      exact_mod_cast Int.self_le_toNat _
    have h3 : bound ≤ ((⌈bound / step⌉.toNat : ℕ) : ℚ) * step :=
      (div_le_iff₀ hstep).mp (h1.trans h2)
    have h4 : ((window_fuel bound step : ℕ) : ℚ)
        = ((⌈bound / step⌉.toNat : ℕ) : ℚ) + 2 := by
      unfold window_fuel
      push_cast
      ring
    rw [h4]
    have h5 : 0 < 2 * step := by linarith
    calc bound - 0 = bound := by ring
      _ ≤ ((⌈bound / step⌉.toNat : ℕ) : ℚ) * step := h3
      _ < (((⌈bound / step⌉.toNat : ℕ) : ℚ) + 2) * step := by ring_nf; linarith
  refine ⟨rfl, ?_, ?_, ?_⟩
  · intro bound a m hm
    exact window_search_fuel_irrel (window_fuel bound step) m 0 (hfuel bound) hm
  · intro n e hA
    rcases attempt_loop_spec st candA candB excl step ra rb hA n with hnone |
      ⟨a0, b0, d, heq, _, _, _⟩
    · rw [hnone]
      simp
    · rw [heq]
      simp
  · intro ca cb a b hkeys h
    unfold get_fair_pair at h
    by_cases h1 : (ca.getD st.keys).length < 1 ∨ (cb.getD st.keys).length < 1
    · rw [if_pos h1] at h
      simp at h
    · rw [if_neg h1, if_neg (by simpa [List.isEmpty_iff] using hkeys)] at h
      have hA : ca.getD st.keys ≠ [] := by
        intro hnil
        exact h1 (Or.inl (by simp [hnil]))
      rcases attempt_loop_spec st _ _ excl step ra rb hA 100 with hnone |
        ⟨a0, b0, d, heq, hmem, hd, helig⟩
      · rw [hnone] at h
        simp at h
      · rw [heq] at h
        simp at h
        obtain ⟨rfl, rfl⟩ := h
        obtain ⟨_, _, hwin, _, _⟩ := eligible_mem.mp helig
        exact hwin.trans hd

/-- Witness for C8 at step 10: an exhausted budget returns the
sentinel. -/
theorem C8_witness :
    attempt_loop twoState ["A"] ["B"] [] 10 (fun _ => 0) (fun _ => 0) 0 = .ok none :=
  (C8_search_bounded twoState ["A"] ["B"] [] 10 (fun _ => 0) (fun _ => 0)
    (by norm_num)).1

end MMRG
